import Mathlib

/-!
Verification development for the prometheus-postgresql-adapter core:
canonicalization of label mappings, the leadership-gated write coordinator,
the staged batch-ingestion writer, the election-backend configuration logic,
and the connection-string construction and logging of the two client
implementations.  All definitions are shallow embeddings of the Go source
in `cmd/prometheus-postgresql-adapter/main.go` and `pkg/postgresql/client.go`.
-/

namespace PromPgAdapter

/-! ### Canonicalization (`metricMetaJson` in `pkg/postgresql/client.go`) -/

/-- The reserved metric-name key, `model.MetricNameLabel`. -/
def metricNameLabel : String := "__name__"

/-- One hexadecimal digit, lower case, as used by Go `encoding/json`. -/
def goHexDigit (n : Nat) : String :=
  String.singleton ("0123456789abcdef".toList.getD n '0')

/-- Escaping of a single character as performed by Go `encoding/json.Marshal`
on the characters of a string (default encoder, HTML escaping on). -/
def escGoChar (c : Char) : String :=
  if c = '"' then "\\\""
  else if c = '\\' then "\\\\"
  else if c = '\n' then "\\n"
  else if c = '\r' then "\\r"
  else if c = '\t' then "\\t"
  else if c = '<' then "\\u003c"
  else if c = '>' then "\\u003e"
  else if c = '&' then "\\u0026"
  else if c.toNat < 32 then "\\u00" ++ goHexDigit (c.toNat / 16) ++ goHexDigit (c.toNat % 16)
  else if c.toNat = 8232 then "\\u2028"
  else if c.toNat = 8233 then "\\u2029"
  else String.singleton c

/-- Go `json.Marshal` applied to a string: a double-quoted, escaped rendering. -/
def jsonQuote (s : String) : String :=
  "\"" ++ String.join (s.toList.map escGoChar) ++ "\""

/-- One element of `labelStrings`: `fmt.Sprintf("%s: %s", escapedLabel, escapedValue)`. -/
def labelEntryText (p : String × String) : String :=
  jsonQuote p.1 ++ ": " ++ jsonQuote p.2

/-- Go `strings.Join(elems, sep)`. -/
def goJoin (sep : String) : List String → String
  | [] => ""
  | a :: rest => rest.foldl (fun acc e => acc ++ sep ++ e) a

/-- Lexicographic less-or-equal on character lists.  Go compares strings by
UTF-8 bytes; byte order coincides with code-point order, which is what this
compares. -/
def charListLe : List Char → List Char → Bool
  | [], _ => true
  | _ :: _, [] => false
  | a :: as, b :: bs => if a = b then charListLe as bs else decide (a < b)

/-- The string order used by Go `sort.Strings`, as a relation on `String`. -/
def strLeRel (a b : String) : Prop := charListLe a.data b.data = true

instance : DecidableRel strLeRel := fun a b =>
  inferInstanceAs (Decidable (charListLe a.data b.data = true))

/-- Go `sort.Strings`: ascending lexicographic sort. -/
def sortStrings (l : List String) : List String :=
  List.insertionSort strLeRel l

/-- `metricMetaJson` from `pkg/postgresql/client.go`.  The Go `model.Metric` map
is modelled as an association list; the arbitrary map-iteration order is the
list order.  Returns the metric name and the canonical labels text. -/
def metricMetaJson (m : List (String × String)) : String × String :=
  let hasName := m.any (fun p => p.1 == metricNameLabel)
  let metricName := (m.lookup metricNameLabel).getD ""
  let numLabels := if hasName then m.length - 1 else m.length
  let labelStrings := (m.filter (fun p => p.1 != metricNameLabel)).map labelEntryText
  if numLabels = 0 then
    (metricName, "\x7b\x7d")
  else
    (metricName, "\x7b" ++ goJoin "," (sortStrings labelStrings) ++ "\x7d")

/-- Modelled from the spec's words for claim C5 only: the canonical labels text
that results from sorting the non-name label *pairs by raw key* and then
escaping, i.e. the "key-sorted" reading of the spec.  To be compared with the
text `metricMetaJson` actually produces. -/
def canonicalLabelsTextByRawKey (m : List (String × String)) : String :=
  let pairs := List.insertionSort (fun a b : String × String => strLeRel a.1 b.1)
    (m.filter (fun p => p.1 != metricNameLabel))
  "\x7b" ++ goJoin "," (pairs.map labelEntryText) ++ "\x7d"

/-! ### The pgx-based batched ingestion writer (`Client.Write` and its helper
statements in the second half of `pkg/postgresql/client.go`).

The store is modelled relationally: the `{prefix}_labels` and `{prefix}_values`
tables are lists of rows, serial id assignment is an explicit counter, and the
session-scoped `{prefix}_tmp` staging table is an `Option` (present iff the
table exists in the session).  Sample values (`float64` in Go) are only ever
copied, never computed with, so they are carried by an arbitrary type `V`. -/

/-- A decoded Prometheus sample (`model.Sample`): label mapping, value,
timestamp. -/
structure Sample (V : Type) where
  metric : List (String × String)
  value : V
  timestamp : Int

/-- A row of the session-scoped staging table
`(time, value, metric_name, labels)`. -/
structure StagedRow (V : Type) where
  time : Int
  value : V
  metricName : String
  labelsText : String

/-- A row of `{prefix}_labels (id, metric_name, labels)`. -/
structure LabelRow where
  id : Nat
  metricName : String
  labelsText : String
  deriving DecidableEq

/-- A row of `{prefix}_values (time, value, labels_id)`; `labels_id` is
nullable because the values insert is a left join. -/
structure ValueRow (V : Type) where
  time : Int
  value : V
  labelsId : Option Nat

/-- The persistent store: the labels and values relations plus the serial-id
counter backing `labels.id`. -/
structure DBState (V : Type) where
  labels : List LabelRow
  valueRows : List (ValueRow V)
  nextId : Nat

/-- The state of one pooled session during a `Write` call: the store it acts
on, its private staging table (`some` iff the table exists), and whether the
session has been returned to the pool. -/
structure Sess (V : Type) where
  db : DBState V
  tmp : Option (List (StagedRow V))
  released : Bool

/-- Fault injection for a `Write` call: whether each store interaction fails
(connection acquisition, `create temporary table`, `CopyFrom`, the labels
transaction, the values transaction). -/
structure Faults where
  connFail : Bool
  createFail : Bool
  copyFail : Bool
  labelsFail : Bool
  valuesFail : Bool

/-- No injected faults. -/
def noFaults : Faults := ⟨false, false, false, false, false⟩

/-- The empty store. -/
def dbEmpty {V : Type} : DBState V := ⟨[], [], 0⟩

/-- Canonicalization of one sample into a staged row, as in the `Write` loop:
`(timestamp.UTC(), value, metricName, metricJson)`. -/
def canonicalRow {V : Type} (s : Sample V) : StagedRow V :=
  let meta := metricMetaJson s.metric
  ⟨s.timestamp, s.value, meta.1, meta.2⟩

/-- `sqlInsertLabels`: insert the distinct `(metric_name, labels)` pairs of the
staging table into the labels table, `on conflict do nothing` against the
uniqueness constraint on `(metric_name, labels)`. -/
def insertLabelsOp {V : Type} (db : DBState V) (staged : List (StagedRow V)) : DBState V :=
  let pairs := (staged.map (fun r => (r.metricName, r.labelsText))).dedup
  pairs.foldl
    (fun acc p =>
      if acc.labels.any (fun l => l.metricName == p.1 && l.labelsText == p.2) then acc
      else { acc with labels := acc.labels ++ [⟨acc.nextId, p.1, p.2⟩], nextId := acc.nextId + 1 })
    db

/-- The label identifier a staged row resolves to in `sqlInsertValues`:
`left join {prefix}_labels lbl on lbl.metric_name = sample.metric_name and
lbl.labels = sample.labels`. -/
def leftJoinId (labels : List LabelRow) (mn lt : String) : Option Nat :=
  (labels.find? (fun l => l.metricName == mn && l.labelsText == lt)).map (fun l => l.id)

/-- `sqlInsertValues`: one values row per staged row, resolving the label id by
the left join above. -/
def insertValuesOp {V : Type} (db : DBState V) (staged : List (StagedRow V)) : DBState V :=
  { db with valueRows :=
      db.valueRows ++ staged.map (fun r => ⟨r.time, r.value, leftJoinId db.labels r.metricName r.labelsText⟩) }

/-- `Client.cleanup`: drop the session's staging table and return the
connection to the pool. -/
def cleanupOp {V : Type} (s : Sess V) : Sess V :=
  { s with tmp := none, released := true }

/-- `Client.Write` of the pgx-based client, as a function of the injected
faults, the initial store and the batch.  Returns the call's error outcome
and, when a session was acquired, the final session state.  The `defer
c.cleanup(ctx, conn)` registered right after acquisition is modelled by
applying `cleanupOp` on every exit path after acquisition.  The labels and
values inserts run in independent transactions: a failing transaction rolls
back only its own effects. -/
def ClientWrite {V : Type} (f : Faults) (db : DBState V) (samples : List (Sample V)) :
    Except String Unit × Option (Sess V) :=
  if f.connFail then (.error "Failed to acquire database connection", none)
  else
    let s0 : Sess V := ⟨db, none, false⟩
    if f.createFail then (.error "Error executing create tmp table", some (cleanupOp s0))
    else
      let s1 : Sess V := { s0 with tmp := some [] }
      if f.copyFail then (.error "Error on copy", some (cleanupOp s1))
      else
        let s2 : Sess V := { s1 with tmp := some (samples.map canonicalRow) }
        let staged := s2.tmp.getD []
        if f.labelsFail then (.error "Error executing statement: labels", some (cleanupOp s2))
        else
          let s3 : Sess V := { s2 with db := insertLabelsOp s2.db staged }
          if f.valuesFail then (.error "Error executing statement: values", some (cleanupOp s3))
          else
            let s4 : Sess V := { s3 with db := insertValuesOp s3.db staged }
            (.ok (), some (cleanupOp s4))

/-! ### The write coordinator (`sendSamples` and the `/write` handler in
`cmd/prometheus-postgresql-adapter/main.go`).

The observability counters are modelled by their running totals; the
per-destination duration histogram by its number of recorded observations.
The elector, the destination and the decode stages are inputs: the elector is
`none` when no Election Coordinator is configured, otherwise the outcome its
`IsLeader()` call would produce; `writeRes` is the outcome the destination's
`Write` would produce if invoked. -/

/-- The sent-sample counter, failed-sample counter and duration histogram. -/
structure Gauges where
  sent : Nat
  failed : Nat
  durObs : Nat

/-- Result of one `sendSamples` call: the returned error value, the updated
counters, and whether the destination's `Write` capability was invoked. -/
structure SendOutcome where
  result : Except String Unit
  gauges : Gauges
  writeInvoked : Bool

/-- The back half of `sendSamples`, after the leadership gate allowed the
write: invoke `Write`, then meter the outcome. -/
def afterGate (writeRes : Except String Unit) (n : Nat) (g : Gauges) : SendOutcome :=
  match writeRes with
  | .error e => ⟨.error e, { g with failed := g.failed + n }, true⟩
  | .ok () => ⟨.ok (), { g with sent := g.sent + n, durObs := g.durObs + 1 }, true⟩

/-- `sendSamples` from `main.go`: gate the batch of size `n` on leadership,
then write and meter. -/
def sendSamples (el : Option (Except String Bool)) (writeRes : Except String Unit)
    (n : Nat) (g : Gauges) : SendOutcome :=
  match el with
  | some (.error e) => ⟨.error e, g, false⟩
  | some (.ok false) => ⟨.ok (), g, false⟩
  | some (.ok true) => afterGate writeRes n g
  | none => afterGate writeRes n g

/-- Outcome of the `/write` HTTP handler: the response status code, the
counters after the call, and the received-samples counter. -/
structure HandlerOutcome where
  status : Nat
  gauges : Gauges
  received : Nat

/-- The `/write` handler from `main.go`: body-read, snappy and protobuf
failures produce error statuses; past decoding, the batch is counted as
received, `sendSamples` runs, its error is only logged, and the response
is the default success status. -/
def writeHandler (readErr snappyErr protoErr : Bool) (el : Option (Except String Bool))
    (writeRes : Except String Unit) (n : Nat) (g : Gauges) (received : Nat) : HandlerOutcome :=
  if readErr then ⟨500, g, received⟩
  else if snappyErr then ⟨400, g, received⟩
  else if protoErr then ⟨400, g, received⟩
  else ⟨200, (sendSamples el writeRes n g).gauges, received + n⟩

/-! ### Election-backend configuration (`initElector` in `main.go`). -/

/-- The relevant part of `main.go`'s `config`: the election flags.
`prometheusTimeout` is the `-leader-election-pg-advisory-lock-prometheus-timeout`
duration in nanoseconds (`time.Duration`); its flag default is `-1`. -/
structure MainConfig where
  restElection : Bool
  haGroupLockID : Int
  prometheusTimeout : Int

/-- What `initElector` produces: a fatal configuration error (`os.Exit(1)`),
no elector, the REST elector, or the advisory-lock scheduled elector with or
without the liveness-resignation goroutine. -/
inductive ElectorInit where
  | fatal
  | noElector
  | restElector
  | pgElector (livenessCheckEnabled : Bool)
  deriving DecidableEq

/-- `initElector` from `main.go` (the advisory-lock construction itself is
assumed to succeed; its failure is an environment error, not a configuration
outcome). -/
def initElector (cfg : MainConfig) : ElectorInit :=
  if cfg.restElection && cfg.haGroupLockID != 0 then .fatal
  else if cfg.restElection then .restElector
  else if cfg.haGroupLockID == 0 then .noElector
  else if cfg.prometheusTimeout == -1 then .fatal
  else .pgElector (cfg.prometheusTimeout != 0)

/-! ### Client construction (`NewClient` in both halves of
`pkg/postgresql/client.go`): connection strings, password handling, logging. -/

/-- The database configuration (`Config` in `pkg/postgresql/client.go`). -/
structure Config where
  host : String
  port : Int
  user : String
  passwordFile : String
  database : String
  schema : String
  sslMode : String
  table : String
  maxOpenConns : Int
  maxIdleConns : Int
  pgPrometheusLogSamples : Bool
  dbConnectRetries : Int

/-- The flag defaults from `ParseFlags`. -/
def cfgDefaults : Config :=
  ⟨"localhost", 5432, "postgres", "", "postgres", "", "disable", "metrics", 50, 10, false, 0⟩

/-- The contents of the file system over time: `fs path t` is what
`os.ReadFile(path)` returns at moment `t`. -/
def FileClock : Type := String → Nat → String

namespace Pgx

/-- A pgx `ConnConfig`, restricted to the fields the adapter sets. -/
structure ConnConfig where
  host : String
  port : Int
  user : String
  dbname : String
  sslmode : String
  password : String

/-- The base connection string of the pgx-based `NewClient`: built from the
configuration only, with no password keyword. -/
def baseConnStr (cfg : Config) : String :=
  "host=" ++ cfg.host ++ " port=" ++ toString cfg.port ++ " user=" ++ cfg.user ++
    " dbname=" ++ cfg.database ++ " sslmode=" ++ cfg.sslMode ++ " connect_timeout=10"

/-- The `ConnConfig` that `pgx.ParseConfig(baseConnStr)` yields: the
configured fields, and no password. -/
def baseConfig (cfg : Config) : ConnConfig :=
  ⟨cfg.host, cfg.port, cfg.user, cfg.database, cfg.sslMode, ""⟩

/-- `readPassword` from `pkg/postgresql/client.go`: read the configured
password file as it is at moment `t`. -/
def readPassword (cfg : Config) (fs : FileClock) (t : Nat) : String :=
  fs cfg.passwordFile t

/-- The `beforeConnectHook` closure registered by the pgx-based `NewClient`:
re-read the password file and set it on the connection configuration. -/
def beforeConnectHook (cfg : Config) (fs : FileClock) (t : Nat)
    (connConfig : ConnConfig) : ConnConfig :=
  { connConfig with password := readPassword cfg fs t }

/-- The pgx-based client: the parsed base configuration and the registered
before-connect hook.  `NewClient` runs at some construction moment `t0`. -/
structure ClientModel where
  base : ConnConfig
  hook : Nat → ConnConfig → ConnConfig

/-- The pgx-based `NewClient`, constructed at moment `t0`.  It reads no
credential at construction — `t0` is ignored; it only registers the hook. -/
def NewClient (cfg : Config) (fs : FileClock) (_t0 : Nat) : ClientModel :=
  ⟨baseConfig cfg, fun t cc => beforeConnectHook cfg fs t cc⟩

/-- The connection line the pgx-based `NewClient` logs: the base connection
string itself. -/
def loggedLine (cfg : Config) : String := baseConnStr cfg

/-- Establishing a new pooled session at moment `t`: the connector applies the
before-connect hook to the base configuration. -/
def newSession (c : ClientModel) (t : Nat) : ConnConfig :=
  c.hook t c.base

end Pgx

namespace Legacy

/-- The connection string of the legacy (`lib/pq`) `NewClient`: the password,
read once at construction, is spliced into the string between single quotes. -/
def connStr (cfg : Config) (password : String) : String :=
  "host=" ++ cfg.host ++ " port=" ++ toString cfg.port ++ " user=" ++ cfg.user ++
    " dbname=" ++ cfg.database ++ " password=\x27" ++ password ++ "\x27 sslmode=" ++
    cfg.sslMode ++ " connect_timeout=10"

/-- The literal `password='`. -/
def pwKeyword : List Char := "password=\x27".data

/-- After the opening quote, `(.+?)'` consumes at least one character and then
everything up to the next single quote; returns the remainder after that
closing quote, or `none` when no such match exists. -/
def skipToQuote : List Char → Option (List Char)
  | [] => none
  | c :: rest => if c = '\x27' then some rest else skipToQuote rest

/-- The tail of a match of `password='(.+?)'` at the current position: one
mandatory character, then scan for the closing quote. -/
def pwMatchTail : List Char → Option (List Char)
  | [] => none
  | _ :: rest => skipToQuote rest

/-- Fuelled scan of `regexp.MustCompile("password='(.+?)'").
ReplaceAllLiteralString(s, "password='****'")`: leftmost-shortest matches, all
occurrences replaced. -/
def redactGo (fuel : Nat) (l : List Char) : List Char :=
  match fuel with
  | 0 => l
  | fuel + 1 =>
    if pwKeyword.isPrefixOf l then
      match pwMatchTail (l.drop pwKeyword.length) with
      | some rest => "password=\x27****\x27".data ++ redactGo fuel rest
      | none =>
        match l with
        | [] => []
        | c :: cs => c :: redactGo fuel cs
    else
      match l with
      | [] => []
      | c :: cs => c :: redactGo fuel cs

/-- The redaction the legacy `NewClient` applies to the connection string
before logging it. -/
def redactPassword (s : String) : String :=
  (redactGo s.data.length s.data).asString

/-- The connection line the legacy `NewClient` logs. -/
def loggedLine (cfg : Config) (password : String) : String :=
  redactPassword (connStr cfg password)

end Legacy

/-! ### General lemmas: the string order, sorting, and text lengths -/

theorem charListLe_total : ∀ a b : List Char, charListLe a b = true ∨ charListLe b a = true := by
  intro a
  induction a with
  | nil => intro b; left; cases b <;> rfl
  | cons x xs ih =>
    intro b
    cases b with
    | nil => right; rfl
    | cons y ys =>
      by_cases hxy : x = y
      · subst hxy
        rcases ih ys with h | h
        · left; simpa [charListLe] using h
        · right; simpa [charListLe] using h
      · rcases lt_trichotomy x y with h | h | h
        · left; simp [charListLe, hxy, h]
        · exact absurd h hxy
        · right; simp [charListLe, Ne.symm hxy, h]

theorem charListLe_trans : ∀ a b c : List Char,
    charListLe a b = true → charListLe b c = true → charListLe a c = true := by
  intro a
  induction a with
  | nil => intro b c _ _; cases c <;> rfl
  | cons x xs ih =>
    intro b c h1 h2
    cases b with
    | nil => simp [charListLe] at h1
    | cons y ys =>
      cases c with
      | nil => simp [charListLe] at h2
      | cons z zs =>
        by_cases hxy : x = y <;> by_cases hyz : y = z
        · subst hxy; subst hyz
          simp only [charListLe, if_pos rfl] at h1 h2 ⊢
          exact ih ys zs h1 h2
        · subst hxy
          simp only [charListLe, if_pos rfl, if_neg hyz, decide_eq_true_eq] at h2 ⊢
          simpa [charListLe, hyz] using h2
        · subst hyz
          simp only [charListLe, if_neg hxy, decide_eq_true_eq] at h1
          simp [charListLe, hxy, h1]
        · simp only [charListLe, if_neg hxy, if_neg hyz, decide_eq_true_eq] at h1 h2
          have hxz : x < z := lt_trans h1 h2
          simp [charListLe, ne_of_lt hxz, hxz]

theorem charListLe_antisymm : ∀ a b : List Char,
    charListLe a b = true → charListLe b a = true → a = b := by
  intro a
  induction a with
  | nil =>
    intro b h1 h2
    cases b with
    | nil => rfl
    | cons y ys => simp [charListLe] at h2
  | cons x xs ih =>
    intro b h1 h2
    cases b with
    | nil => simp [charListLe] at h1
    | cons y ys =>
      by_cases hxy : x = y
      · subst hxy
        simp only [charListLe, if_pos rfl] at h1 h2
        rw [ih ys h1 h2]
      · simp only [charListLe, if_neg hxy, decide_eq_true_eq] at h1
        simp only [charListLe, if_neg (Ne.symm hxy), decide_eq_true_eq] at h2
        exact absurd h2 (lt_asymm h1)

instance : IsTotal String strLeRel :=
  ⟨fun a b => charListLe_total a.data b.data⟩

instance : IsTrans String strLeRel :=
  ⟨fun a b c h1 h2 => charListLe_trans a.data b.data c.data h1 h2⟩

instance : IsAntisymm String strLeRel :=
  ⟨fun a b h1 h2 => by
    cases a with
    | mk da =>
      cases b with
      | mk db => exact congrArg String.mk (charListLe_antisymm da db h1 h2)⟩

theorem sortStrings_sorted (l : List String) : List.Sorted strLeRel (sortStrings l) :=
  List.sorted_insertionSort strLeRel l

theorem sortStrings_perm (l : List String) : (sortStrings l).Perm l :=
  List.perm_insertionSort strLeRel l

theorem sortStrings_congr {l1 l2 : List String} (h : l1.Perm l2) :
    sortStrings l1 = sortStrings l2 :=
  List.eq_of_perm_of_sorted ((sortStrings_perm l1).trans (h.trans (sortStrings_perm l2).symm))
    (sortStrings_sorted l1) (sortStrings_sorted l2)

theorem perm_any {α : Type} {l1 l2 : List α} (h : l1.Perm l2) (p : α → Bool) :
    l1.any p = l2.any p := by
  refine Bool.eq_iff_iff.mpr ?_
  simp only [List.any_eq_true]
  exact ⟨fun ⟨x, hx, hp⟩ => ⟨x, h.mem_iff.mp hx, hp⟩,
    fun ⟨x, hx, hp⟩ => ⟨x, h.mem_iff.mpr hx, hp⟩⟩

theorem jsonQuote_length (s : String) : 1 ≤ (jsonQuote s).length := by
  unfold jsonQuote
  rw [String.length_append, String.length_append]
  have h : ("\"" : String).length = 1 := rfl
  rw [h]
  omega

theorem labelEntryText_length (p : String × String) : 1 ≤ (labelEntryText p).length := by
  unfold labelEntryText
  rw [String.length_append, String.length_append]
  have h1 := jsonQuote_length p.1
  omega

theorem length_le_foldl_append (sep : String) (es : List String) :
    ∀ acc : String, acc.length ≤ (es.foldl (fun a e => a ++ sep ++ e) acc).length := by
  induction es with
  | nil => intro acc; simp
  | cons e es ih =>
    intro acc
    refine le_trans ?_ (ih (acc ++ sep ++ e))
    rw [String.length_append, String.length_append]
    omega

theorem goJoin_length (sep a : String) (rest : List String) :
    a.length ≤ (goJoin sep (a :: rest)).length := by
  simpa [goJoin] using length_le_foldl_append sep rest a

/-- The canonical labels text, written as one conditional. -/
theorem metricMetaJson_snd (m : List (String × String)) :
    (metricMetaJson m).2 =
      if (if m.any (fun p => p.1 == metricNameLabel) then m.length - 1 else m.length) = 0
      then "\x7b\x7d"
      else "\x7b" ++ goJoin ","
        (sortStrings ((m.filter (fun p => p.1 != metricNameLabel)).map labelEntryText)) ++
        "\x7d" := by
  simp only [metricMetaJson]
  rw [apply_ite Prod.snd]

theorem filter_eq_nil_of_numLabels_eq_zero {m : List (String × String)}
    (h : (if m.any (fun p => p.1 == metricNameLabel) then m.length - 1 else m.length) = 0) :
    m.filter (fun p => p.1 != metricNameLabel) = [] := by
  by_cases hn : m.any (fun p => p.1 == metricNameLabel)
  · rw [if_pos hn] at h
    have hne : m ≠ [] := by rintro rfl; simp at hn
    have hlen : m.length = 1 := by
      have := List.length_pos.mpr hne
      omega
    obtain ⟨p, rfl⟩ := List.length_eq_one.mp hlen
    have hp : (p.1 == metricNameLabel) = true := by simpa using hn
    have hb : (p.1 != metricNameLabel) = false := by simp [bne, hp]
    simp [List.filter, hb]
  · rw [if_neg hn] at h
    rw [List.length_eq_zero.mp h]
    rfl

theorem metricMetaJson_snd_perm {l1 l2 : List (String × String)} (h : l1.Perm l2) :
    (metricMetaJson l1).2 = (metricMetaJson l2).2 := by
  rw [metricMetaJson_snd, metricMetaJson_snd]
  rw [perm_any h, h.length_eq, sortStrings_congr ((h.filter _).map labelEntryText)]

theorem metricMetaJson_snd_repr (m : List (String × String)) :
    ∃ es : List String, List.Sorted strLeRel es
      ∧ es.Perm ((m.filter (fun p => p.1 != metricNameLabel)).map labelEntryText)
      ∧ (metricMetaJson m).2 = "\x7b" ++ goJoin "," es ++ "\x7d" := by
  refine ⟨sortStrings ((m.filter (fun p => p.1 != metricNameLabel)).map labelEntryText),
    sortStrings_sorted _, sortStrings_perm _, ?_⟩
  rw [metricMetaJson_snd]
  by_cases hnum :
      (if m.any (fun p => p.1 == metricNameLabel) then m.length - 1 else m.length) = 0
  · rw [if_pos hnum, filter_eq_nil_of_numLabels_eq_zero hnum]
    decide
  · rw [if_neg hnum]

theorem metricMetaJson_snd_eq_braces_iff (m : List (String × String)) :
    (metricMetaJson m).2 = "\x7b\x7d" ↔ m.filter (fun p => p.1 != metricNameLabel) = [] := by
  rw [metricMetaJson_snd]
  by_cases hnum :
      (if m.any (fun p => p.1 == metricNameLabel) then m.length - 1 else m.length) = 0
  · rw [if_pos hnum]
    simp [filter_eq_nil_of_numLabels_eq_zero hnum]
  · rw [if_neg hnum]
    by_cases hfil : m.filter (fun p => p.1 != metricNameLabel) = []
    · rw [hfil]
      exact iff_of_true (by decide) rfl
    · obtain ⟨q, rest, hq⟩ : ∃ q rest,
          m.filter (fun p => p.1 != metricNameLabel) = q :: rest := by
        cases hml : m.filter (fun p => p.1 != metricNameLabel) with
        | nil => exact absurd hml hfil
        | cons q rest => exact ⟨q, rest, rfl⟩
      constructor
      · intro habs
        exfalso
        have hsortne :
            sortStrings ((m.filter (fun p => p.1 != metricNameLabel)).map labelEntryText) ≠
              [] := by
          intro h0
          have hlen := (sortStrings_perm
            ((m.filter (fun p => p.1 != metricNameLabel)).map labelEntryText)).length_eq
          rw [h0, hq] at hlen
          simp at hlen
        obtain ⟨a, as, ha⟩ : ∃ a as,
            sortStrings ((m.filter (fun p => p.1 != metricNameLabel)).map labelEntryText) =
              a :: as := by
          cases hml : sortStrings
              ((m.filter (fun p => p.1 != metricNameLabel)).map labelEntryText) with
          | nil => exact absurd hml hsortne
          | cons a as => exact ⟨a, as, rfl⟩
        have hamem : a ∈ (m.filter (fun p => p.1 != metricNameLabel)).map labelEntryText :=
          (sortStrings_perm _).subset (ha ▸ List.mem_cons_self a as)
        obtain ⟨qq, _, rfl⟩ := List.mem_map.mp hamem
        have hlen1 : 1 ≤ (labelEntryText qq).length := labelEntryText_length qq
        have hjoin : (labelEntryText qq).length ≤
            (goJoin ","
              (sortStrings ((m.filter (fun p => p.1 != metricNameLabel)).map labelEntryText))).length := by
          rw [ha]
          exact goJoin_length "," _ as
        have hlen := congrArg String.length habs
        have hb1 : ("\x7b" : String).length = 1 := rfl
        have hb2 : ("\x7d" : String).length = 1 := rfl
        have hb3 : ("\x7b\x7d" : String).length = 2 := rfl
        rw [String.length_append, String.length_append, hb1, hb2, hb3] at hlen
        omega
      · intro h0
        exact absurd h0 hfil

/-! ### Claims about the write coordinator -/

/-- Claim C1: when an Election Coordinator is configured and `IsLeader()`
returns `false` without error, `sendSamples` never invokes the destination's
`Write` capability, returns no error, and leaves the sent- and failed-sample
counters (and the histogram) unchanged. -/
theorem sendSamples_notLeader_dropsSilently (wr : Except String Unit) (n : Nat) (g : Gauges) :
    sendSamples (some (.ok false)) wr n g = ⟨.ok (), g, false⟩ := rfl

/-- Claim C6: when the configured Election Coordinator's `IsLeader()` returns
an error, `sendSamples` aborts immediately, returns that error, never invokes
the destination's `Write` capability, and updates no counter or histogram. -/
theorem sendSamples_leaderCheckError_aborts (e : String) (wr : Except String Unit)
    (n : Nat) (g : Gauges) :
    sendSamples (some (.error e)) wr n g = ⟨.error e, g, false⟩ := rfl

/-- Claim C2: when the destination's `Write` returns an error (whether no
elector is configured or the instance is leader), the failed-sample counter is
incremented by exactly the batch size, the sent-sample counter and the
duration histogram are unchanged, the error is returned for logging only, and
the `/write` handler still answers the inbound request with the success
status. -/
theorem sendSamples_writeError_metering (e : String) (n : Nat) (g : Gauges) (received : Nat) :
    sendSamples none (.error e) n g = ⟨.error e, { g with failed := g.failed + n }, true⟩
    ∧ sendSamples (some (.ok true)) (.error e) n g =
        ⟨.error e, { g with failed := g.failed + n }, true⟩
    ∧ (writeHandler false false false none (.error e) n g received).status = 200
    ∧ (writeHandler false false false (some (.ok true)) (.error e) n g received).status = 200 :=
  ⟨rfl, rfl, rfl, rfl⟩

/-! ### Claims about the batched ingestion writer -/

/-- Claim C3: writing two samples that share the same label mapping into an
empty store yields exactly one label row carrying their canonical
`(metric_name, labels)` pair, and two value rows, one per sample, each
referencing that label row's identifier. -/
theorem clientWrite_dedup {V : Type} (m : List (String × String)) (v1 v2 : V) (t1 t2 : Int) :
    ClientWrite noFaults dbEmpty [⟨m, v1, t1⟩, ⟨m, v2, t2⟩] =
      (.ok (), some ⟨⟨[⟨0, (metricMetaJson m).1, (metricMetaJson m).2⟩],
        [⟨t1, v1, some 0⟩, ⟨t2, v2, some 0⟩], 1⟩, none, true⟩) := by
  simp [ClientWrite, noFaults, dbEmpty, canonicalRow, insertLabelsOp, insertValuesOp,
    cleanupOp, leftJoinId, List.dedup_cons_of_mem (List.mem_singleton_self _)]

/-- Claim C4: for every fault combination in which the session is acquired
(`connFail = false`), on every exit path of `Write` — success or failure at
the create, copy, labels or values step — the session-scoped staging table is
dropped and the session is released back to the pool. -/
theorem clientWrite_cleanup {V : Type} (f : Faults) (db : DBState V)
    (samples : List (Sample V)) (h : f.connFail = false) :
    ∃ s : Sess V, (ClientWrite f db samples).2 = some s
      ∧ s.tmp = none ∧ s.released = true := by
  unfold ClientWrite
  rw [h]
  by_cases h1 : f.createFail <;> by_cases h2 : f.copyFail <;>
    by_cases h3 : f.labelsFail <;> by_cases h4 : f.valuesFail <;>
    simp [h1, h2, h3, h4, cleanupOp]

/-- Witness for claim C4 at a concrete input. -/
theorem clientWrite_cleanup_witness :
    ∃ s : Sess Int, (ClientWrite noFaults dbEmpty []).2 = some s
      ∧ s.tmp = none ∧ s.released = true :=
  clientWrite_cleanup noFaults dbEmpty [] rfl

/-- Claim C9: a staged row whose `(metric_name, labels)` pair matches no row
of the labels table still produces a value row — with a null label identifier
— because the values insert joins staging to labels with a left join; and the
insert produces one value row per staged row. -/
theorem insertValues_leftJoin_null {V : Type} (db : DBState V) (staged : List (StagedRow V))
    (r : StagedRow V) (hmem : r ∈ staged)
    (hnomatch : ∀ l ∈ db.labels, ¬(l.metricName = r.metricName ∧ l.labelsText = r.labelsText)) :
    (⟨r.time, r.value, none⟩ : ValueRow V) ∈ (insertValuesOp db staged).valueRows
    ∧ (insertValuesOp db staged).valueRows.length = db.valueRows.length + staged.length := by
  have hfind : db.labels.find?
      (fun l => l.metricName == r.metricName && l.labelsText == r.labelsText) = none := by
    rw [List.find?_eq_none]
    intro l hl
    simpa using hnomatch l hl
  constructor
  · refine List.mem_append_right _ ?_
    refine List.mem_map.mpr ⟨r, hmem, ?_⟩
    simp [leftJoinId, hfind]
  · simp [insertValuesOp]

/-- Witness for claim C9 at a concrete input. -/
theorem insertValues_leftJoin_null_witness :
    (⟨5, 7, none⟩ : ValueRow Int) ∈
      (insertValuesOp dbEmpty [⟨5, 7, "m", "\x7b\x7d"⟩]).valueRows
    ∧ (insertValuesOp dbEmpty [(⟨5, 7, "m", "\x7b\x7d"⟩ : StagedRow Int)]).valueRows.length =
      (dbEmpty (V := Int)).valueRows.length + [(⟨5, 7, "m", "\x7b\x7d"⟩ : StagedRow Int)].length :=
  insertValues_leftJoin_null dbEmpty [⟨5, 7, "m", "\x7b\x7d"⟩] ⟨5, 7, "m", "\x7b\x7d"⟩
    (List.mem_singleton_self _) (by intro l hl; cases hl)

/-! ### Claims about configuration and client construction -/

/-- Counterexample to claim C7 as stated: the timeout `-2` (a negative
duration other than the flag sentinel `-1`) is not rejected when the
advisory-lock backend is selected — `initElector` proceeds and builds the
advisory-lock elector with the resignation monitor enabled. -/
theorem initElector_negativeTimeout_notRejected :
    (-2 : Int) < 0 ∧ initElector ⟨false, 1, -2⟩ ≠ .fatal
    ∧ initElector ⟨false, 1, -2⟩ = .pgElector true := by decide

/-- Claim C7 as amended: with the advisory-lock backend selected, startup is
fatal exactly when the timeout equals the unset flag sentinel `-1`; a timeout
of `0` is accepted and disables the resignation monitor. -/
theorem initElector_timeout_policy (cfg : MainConfig)
    (hrest : cfg.restElection = false) (hlock : cfg.haGroupLockID ≠ 0) :
    (initElector cfg = .fatal ↔ cfg.prometheusTimeout = -1)
    ∧ (cfg.prometheusTimeout = 0 → initElector cfg = .pgElector false) := by
  constructor
  · by_cases ht : cfg.prometheusTimeout = -1 <;>
      simp [initElector, hrest, hlock, ht]
  · intro ht
    simp [initElector, hrest, hlock, ht]

/-- Witness for the amended claim C7 at a concrete input. -/
theorem initElector_timeout_policy_witness :
    (initElector ⟨false, 1, 0⟩ = .fatal ↔ (0 : Int) = -1)
    ∧ ((0 : Int) = 0 → initElector ⟨false, 1, 0⟩ = .pgElector false) :=
  initElector_timeout_policy ⟨false, 1, 0⟩ rfl (by decide)

/-- Claim C8: a new session establishment of the pgx-based client re-reads
the credentials from the password file at that moment (for every moment `t`,
the password used is the file's content at `t`), and the constructed client —
hence every session it establishes — does not depend on the moment of client
construction. -/
theorem newClient_rereadsPassword (cfg : Config) (fs : FileClock) (t0 t0' t : Nat) :
    (Pgx.newSession (Pgx.NewClient cfg fs t0) t).password = fs cfg.passwordFile t
    ∧ Pgx.newSession (Pgx.NewClient cfg fs t0) t =
        Pgx.newSession (Pgx.NewClient cfg fs t0') t :=
  ⟨rfl, rfl⟩

/-- Claim C10, evaluated at a failing input: the legacy client's logged
connection line is not independent of the password — for the password `a'b`
the non-greedy redaction stops at the embedded quote and the suffix `b'`
leaks into the log.  (The pgx-based client's logged line is the base
connection string, which is built without the password.) -/
theorem legacyLog_dependsOnPassword :
    Legacy.loggedLine cfgDefaults "a\x27b" ≠ Legacy.loggedLine cfgDefaults "a"
    ∧ Legacy.loggedLine cfgDefaults "a\x27b" =
      "host=localhost port=5432 user=postgres dbname=postgres password=\x27****\x27b\x27 sslmode=disable connect_timeout=10" := by
  refine ⟨by decide, by decide⟩

/-! ### Claims about canonicalization -/

/-- Counterexample to claim C5 as stated: the canonical labels text is sorted
by the JSON-escaped `"key": "value"` entry strings, not by raw key — for the
keys `"\n"` (which escapes to `"\\n"`) and `"!"`, escaped-entry order and raw
key order disagree, so the produced text differs from the raw-key-sorted
text. -/
theorem metricMetaJson_not_rawKeySorted :
    (metricMetaJson [("__name__", "m"), ("\n", "x"), ("!", "y")]).2 ≠
      canonicalLabelsTextByRawKey [("__name__", "m"), ("\n", "x"), ("!", "y")] := by
  decide

/-- Claim C5 as amended: for any two label mappings containing identical
key/value pairs in any insertion order, `metricMetaJson` produces byte-identical
canonical labels text; the text is brace-delimited around the
escaped-entry-sorted (rather than raw-key-sorted) `"key": "value"` entries of
the non-name labels; and it is exactly `"{}"` precisely when the mapping
contains no labels other than the reserved metric-name key. -/
theorem metricMetaJson_canonical (l1 l2 : List (String × String)) (h : l1.Perm l2) :
    (metricMetaJson l1).2 = (metricMetaJson l2).2
    ∧ (∃ es : List String, List.Sorted strLeRel es
        ∧ es.Perm ((l1.filter (fun p => p.1 != metricNameLabel)).map labelEntryText)
        ∧ (metricMetaJson l1).2 = "\x7b" ++ goJoin "," es ++ "\x7d")
    ∧ ((metricMetaJson l1).2 = "\x7b\x7d" ↔
        l1.filter (fun p => p.1 != metricNameLabel) = []) :=
  ⟨metricMetaJson_snd_perm h, metricMetaJson_snd_repr l1, metricMetaJson_snd_eq_braces_iff l1⟩

/-- Witness for the amended claim C5 at a concrete pair of reordered
mappings. -/
theorem metricMetaJson_canonical_witness :
    (metricMetaJson [("__name__", "up"), ("job", "a")]).2 =
        (metricMetaJson [("job", "a"), ("__name__", "up")]).2
    ∧ (∃ es : List String, List.Sorted strLeRel es
        ∧ es.Perm (([("__name__", "up"), ("job", "a")].filter
            (fun p => p.1 != metricNameLabel)).map labelEntryText)
        ∧ (metricMetaJson [("__name__", "up"), ("job", "a")]).2 =
            "\x7b" ++ goJoin "," es ++ "\x7d")
    ∧ ((metricMetaJson [("__name__", "up"), ("job", "a")]).2 = "\x7b\x7d" ↔
        [("__name__", "up"), ("job", "a")].filter (fun p => p.1 != metricNameLabel) = []) :=
  metricMetaJson_canonical [("__name__", "up"), ("job", "a")]
    [("job", "a"), ("__name__", "up")] (List.Perm.swap ("job", "a") ("__name__", "up") [])

end PromPgAdapter
